import Mathlib

/-!
Verification of the single-pass audio transcoding pipeline (src/parser.py)
and the upload-URL selection logic of the gateway handler (src/api.py).

The pipeline script is embedded as a trace-producing function `run` over an
environment that supplies the demuxed packets (each with an optional decode
timestamp and a decode outcome), a stateful resampler and a stateful,
fallible encoder.  The trace records every decode / resample / encode / mux
call and the two container closes, in program order, so that the ordering
and flush-protocol claims can be stated as properties of the trace.
-/

namespace Transcode

/-- Frames are abstract raw-audio payloads; identity is all the claims need. -/
abbrev Frame := Nat

/-- Encoded output packets, likewise abstract. -/
abbrev OutPacket := Nat

/-- Errors the Python script can actually raise, by Python class name:
`next` on an exhausted generator raises the builtin `StopIteration`;
decode/encode failures surfacing from the media library are `FFmpegError`
subclasses. -/
inductive PyError where
  | stopIteration
  | avDecodeError
  | avEncodeError
  deriving DecidableEq, Repr

/-- The Python class name of each error the script can raise. -/
def pyErrorName : PyError → String
  | .stopIteration => "StopIteration"
  | .avDecodeError => "FFmpegError"
  | .avEncodeError => "FFmpegError"

/-- Outcome of `packet.decode()`: a list of frames, or a raised error. -/
inductive DecodeOutcome where
  | frames (fs : List Frame)
  | failure (e : PyError)
  deriving DecidableEq, Repr

/-- A demuxed packet: `dts` may be absent, and decoding it has a fixed
outcome (src/parser.py lines 30-34). -/
structure Packet where
  dts : Option Int
  decodeResult : DecodeOutcome
  deriving DecidableEq, Repr

/-- A channel layout object; only its `name` is consulted (line 20). -/
structure Layout where
  name : String
  deriving DecidableEq, Repr

/-- An input stream as the script sees it: `type`, `rate` (None or 0 are
falsy in Python), `layout` (None when the source reports none). -/
structure InStream where
  type : String
  rate : Option Nat
  layout : Option Layout
  deriving DecidableEq, Repr

/-- Result of `resampler.resample(frame)`: the library may hand back a bare
frame or a list of frames (line 38 branches on `isinstance(frame, list)`). -/
inductive ResampleRet where
  | bare (f : Frame)
  | list (fs : List Frame)
  deriving DecidableEq, Repr

/-- Line 38: `frames = frame if isinstance(frame, list) else [frame]`. -/
def normalizeRet : ResampleRet → List Frame
  | .bare f => [f]
  | .list fs => fs

/-- One observable call made by the script, in program order. -/
inductive Event where
  | decodeCall (p : Packet)
  | resampleCall (f : Frame)
  | encodeCall (f : Option Frame)
  | muxCall (pk : OutPacket)
  | closeInCall
  | closeOutCall
  deriving DecidableEq, Repr

/-- Line 13: `next(s for s in in_container.streams if s.type == "audio")`.
The first audio stream is returned; an exhausted generator makes `next`
raise the builtin `StopIteration`. -/
def selectAudioStream (streams : List InStream) : Except PyError InStream :=
  match streams.find? (fun s => s.type == "audio") with
  | some s => Except.ok s
  | none => Except.error PyError.stopIteration

/-- Line 16: `rate=in_audio.rate or 44100` (Python `or`: None and 0 are
falsy, so either yields the 44100 fallback). -/
def outRate (r : Option Nat) : Nat :=
  match r with
  | none => 44100
  | some n => if n = 0 then 44100 else n

/-- Line 20: `out_audio.layout = in_audio.layout.name if in_audio.layout
else "stereo"`. -/
def outLayout (l : Option Layout) : String :=
  match l with
  | some lay => lay.name
  | none => "stereo"

/-- The run environment: file paths and streams of the two containers, the
demuxed packets of the selected audio stream, and the stateful resampler
(state type `R`) and stateful fallible encoder (state type `E`).  `resample`
embeds `resampler.resample` (line 35), `encode` embeds `out_audio.encode`
(lines 41 and 45), where the input `none` is the `encode(None)` flush. -/
structure Env (R E : Type) where
  inPath : String
  outPath : String
  streams : List InStream
  packets : List Packet
  r0 : R
  resample : R → Frame → R × ResampleRet
  e0 : E
  encode : E → Option Frame → Except PyError (E × List OutPacket)

/-- Lines 40-42: `for fr in frames: for out_packet in out_audio.encode(fr):
out_container.mux(out_packet)` — encode each frame in order, muxing every
yielded packet immediately; a raised encode error aborts, propagating. -/
def encodeFrames {E : Type} (encode : E → Option Frame → Except PyError (E × List OutPacket))
    (e : E) : List Frame → List Event × E × Option PyError
  | [] => ([], e, none)
  | f :: fs =>
    match encode e (some f) with
    | Except.error err => ([Event.encodeCall (some f)], e, some err)
    | Except.ok pr =>
      let rest := encodeFrames encode pr.1 fs
      (Event.encodeCall (some f) :: pr.2.map Event.muxCall ++ rest.1, rest.2.1, rest.2.2)

/-- Lines 34-42: for each decoded frame, resample it, normalize the
frame-or-list return, and feed the resulting frames to the encoder. -/
def processFrames {R E : Type} (resample : R → Frame → R × ResampleRet)
    (encode : E → Option Frame → Except PyError (E × List OutPacket))
    (r : R) (e : E) : List Frame → List Event × R × E × Option PyError
  | [] => ([], r, e, none)
  | f :: fs =>
    let r1 := (resample r f).1
    let enc := encodeFrames encode e (normalizeRet (resample r f).2)
    match enc.2.2 with
    | some err => (Event.resampleCall f :: enc.1, r1, enc.2.1, some err)
    | none =>
      let rest := processFrames resample encode r1 enc.2.1 fs
      (Event.resampleCall f :: enc.1 ++ rest.1, rest.2.1, rest.2.2.1, rest.2.2.2)

/-- Lines 30-42: the demux loop.  A packet with absent `dts` is skipped by
`continue` without a decode call; otherwise `packet.decode()` runs and its
frames are processed; a raised decode error aborts, propagating. -/
def processPackets {R E : Type} (resample : R → Frame → R × ResampleRet)
    (encode : E → Option Frame → Except PyError (E × List OutPacket))
    (r : R) (e : E) : List Packet → List Event × R × E × Option PyError
  | [] => ([], r, e, none)
  | p :: ps =>
    match p.dts with
    | none => processPackets resample encode r e ps
    | some _ =>
      match p.decodeResult with
      | DecodeOutcome.failure err => ([Event.decodeCall p], r, e, some err)
      | DecodeOutcome.frames fs =>
        let pf := processFrames resample encode r e fs
        match pf.2.2.2 with
        | some err => (Event.decodeCall p :: pf.1, pf.2.1, pf.2.2.1, some err)
        | none =>
          let rest := processPackets resample encode pf.2.1 pf.2.2.1 ps
          (Event.decodeCall p :: pf.1 ++ rest.1, rest.2.1, rest.2.2.1, rest.2.2.2)

/-- Lines 30-49 of src/parser.py: the demux loop, then the single
`out_audio.encode(None)` flush whose packets are muxed, then
`in_container.close()` and `out_container.close()`.  A raised error stops
the script at that point; the statements after it never execute. -/
def run {R E : Type} (env : Env R E) : List Event × Option PyError :=
  let body := processPackets env.resample env.encode env.r0 env.e0 env.packets
  match body.2.2.2 with
  | some err => (body.1, some err)
  | none =>
    match env.encode body.2.2.1 none with
    | Except.error err => (body.1 ++ [Event.encodeCall none], some err)
    | Except.ok pr =>
      (body.1 ++ Event.encodeCall none :: pr.2.map Event.muxCall
          ++ [Event.closeInCall, Event.closeOutCall], none)

/-- The packets muxed into the output container, in mux order. -/
def muxedPackets (tr : List Event) : List OutPacket :=
  tr.filterMap fun ev =>
    match ev with
    | Event.muxCall pk => some pk
    | _ => none

/-- The frames passed to `resampler.resample`, in call order. -/
def resampleInputs (tr : List Event) : List Frame :=
  tr.filterMap fun ev =>
    match ev with
    | Event.resampleCall f => some f
    | _ => none

/-- The arguments of all `encode` calls, in call order (`none` = flush). -/
def encodeInputs (tr : List Event) : List (Option Frame) :=
  tr.filterMap fun ev =>
    match ev with
    | Event.encodeCall f => some f
    | _ => none

/-- The real (non-flush) frames submitted to `encode`, in call order. -/
def realEncodeInputs (tr : List Event) : List Frame :=
  tr.filterMap fun ev =>
    match ev with
    | Event.encodeCall (some f) => some f
    | _ => none

/-- True of the flush call event `encode(None)`. -/
def isFlushCall : Event → Bool
  | Event.encodeCall none => true
  | _ => false

/-- Events that the demux loop body can emit: anything except the flush
call and the container closes. -/
def isLoopEvent : Event → Bool
  | Event.encodeCall none => false
  | Event.closeInCall => false
  | Event.closeOutCall => false
  | _ => true

/-- The frames produced by decoding the packets the loop actually decodes
(absent-`dts` packets are skipped), in decode order. -/
def decodedFrames (ps : List Packet) : List Frame :=
  ps.flatMap fun p =>
    match p.dts, p.decodeResult with
    | some _, DecodeOutcome.frames fs => fs
    | _, _ => []

/-- The resampler state after feeding it the given frames in order. -/
def resampleRun {R : Type} (resample : R → Frame → R × ResampleRet) (r : R) :
    List Frame → R
  | [] => r
  | f :: fs => resampleRun resample (resample r f).1 fs

/-- All frames the resampler hands back for the given input frames, in
order, after the frame-or-list normalization. -/
def resampleOutputs {R : Type} (resample : R → Frame → R × ResampleRet) (r : R) :
    List Frame → List Frame
  | [] => []
  | f :: fs =>
    normalizeRet (resample r f).2 ++ resampleOutputs resample (resample r f).1 fs

/-- Specification-side call discipline for the resample/encode stages: for
each decoded frame, one resample call followed by one encode call per
normalized output frame, before the next decoded frame is touched. -/
def specResampleEncodeSeq {R : Type} (resample : R → Frame → R × ResampleRet)
    (r : R) : List Frame → List Event
  | [] => []
  | f :: fs =>
    Event.resampleCall f ::
      (normalizeRet (resample r f).2).map (fun g => Event.encodeCall (some g))
      ++ specResampleEncodeSeq resample (resample r f).1 fs

/-- Events kept when checking the resample/encode call discipline:
resample calls and real-data encode calls. -/
def isStageCall : Event → Bool
  | Event.resampleCall _ => true
  | Event.encodeCall (some _) => true
  | _ => false

/-- Feed the encoder a sequence of inputs from state `e`; when every call
succeeds, return the final state and the concatenation of all yielded
packets in call order. -/
def encodeAllOk {E : Type} (encode : E → Option Frame → Except PyError (E × List OutPacket))
    (e : E) : List (Option Frame) → Option (E × List OutPacket)
  | [] => some (e, [])
  | f :: fs =>
    match encode e f with
    | Except.error _ => none
    | Except.ok pr =>
      match encodeAllOk encode pr.1 fs with
      | none => none
      | some pr2 => some (pr2.1, pr.2 ++ pr2.2)

/-- A sample resampler: stateful, alternating between a bare-frame return
and a list return, to exercise both arms of the `isinstance` branch. -/
def sampleResample : Nat → Frame → Nat × ResampleRet :=
  fun r f =>
    (r + 1, if r % 2 == 0 then ResampleRet.bare (f * 10) else ResampleRet.list [f * 10, f * 10 + 1])

/-- A sample encoder: buffers the running sum of its inputs, emits one
packet per frame, and emits the buffered sum on flush. -/
def sampleEncode : Nat → Option Frame → Except PyError (Nat × List OutPacket) :=
  fun e f =>
    match f with
    | some x => Except.ok (e + x, [x + 1000])
    | none => Except.ok (e, [e])

/-- A sample environment on which the whole pipeline succeeds; the middle
packet has no `dts` and must be skipped. -/
def envW : Env Nat Nat :=
  { inPath := "testvid1.mp4"
    outPath := "testaudio.mp3"
    streams := [{ type := "audio", rate := some 48000, layout := some ⟨"mono"⟩ }]
    packets := [⟨some 0, DecodeOutcome.frames [1, 2]⟩,
                ⟨none, DecodeOutcome.frames [7]⟩,
                ⟨some 1, DecodeOutcome.frames [3]⟩]
    r0 := 0
    resample := sampleResample
    e0 := 0
    encode := sampleEncode }

/-- The same pipeline pointed at different file paths. -/
def envW2 : Env Nat Nat :=
  { envW with inPath := "other.mp4", outPath := "other.mp3" }

/-- A sample environment whose second packet fails to decode. -/
def envErr : Env Nat Nat :=
  { envW with
    packets := [⟨some 0, DecodeOutcome.frames [1]⟩,
                ⟨some 1, DecodeOutcome.failure PyError.avDecodeError⟩,
                ⟨some 2, DecodeOutcome.frames [3]⟩] }

end Transcode

namespace Gateway

/-- A JSON value, as far as the handler's truthiness tests care. -/
inductive JVal where
  | str (s : String)
  | num (n : Int)
  | boolean (b : Bool)
  | null
  deriving DecidableEq, Repr

/-- Python truthiness of a JSON value: empty string, 0, False and None are
falsy. -/
def JVal.truthy : JVal → Bool
  | .str s => !(s == "")
  | .num n => !(n == 0)
  | .boolean b => b
  | .null => false

/-- The parsed init-upload response body, as a key/value record;
`jget d k` is Python `init_data.get(k)` (None when the key is absent). -/
def jget (d : List (String × JVal)) (k : String) : Option JVal :=
  (d.find? (fun kv => kv.1 == k)).map (fun kv => kv.2)

/-- Python `a or b` over optional JSON values: the left operand is kept
when it is present and truthy, otherwise the right operand is evaluated. -/
def pyOr (a b : Option JVal) : Option JVal :=
  match a with
  | some v => if v.truthy then some v else b
  | none => b

/-- Lines 108-112 of src/api.py:
`init_data.get("upload_url") or init_data.get("presigned_url") or
init_data.get("url")`. -/
def pickUploadUrl (d : List (String × JVal)) : Option JVal :=
  pyOr (jget d "upload_url") (pyOr (jget d "presigned_url") (jget d "url"))

/-- What the handler does next: raise an HTTP error, or issue the presigned
PUT with the chosen URL. -/
inductive UploadStep where
  | httpError (status : Nat) (detail : String)
  | putRequest (url : JVal)
  deriving DecidableEq, Repr

/-- Lines 108-134 of src/api.py, after the upstream init response is parsed:
when `upload_url` is absent or falsy the handler raises HTTP 502 and never
reaches the PUT; otherwise it PUTs the staged bytes to that URL. -/
def uploadUrlStep (d : List (String × JVal)) : UploadStep :=
  match pickUploadUrl d with
  | none => UploadStep.httpError 502 "Upstream did not return an upload URL"
  | some v =>
      if v.truthy then UploadStep.putRequest v
      else UploadStep.httpError 502 "Upstream did not return an upload URL"

/-- Specification-side selector: the first present-and-truthy value among
the keys `upload_url`, `presigned_url`, `url`, in that order. -/
def specPickUploadUrl (d : List (String × JVal)) : Option JVal :=
  (["upload_url", "presigned_url", "url"].filterMap (jget d)).find? JVal.truthy

end Gateway

namespace Transcode

theorem run_eq {R E : Type} (env : Env R E) :
    run env =
      match (processPackets env.resample env.encode env.r0 env.e0 env.packets).2.2.2 with
      | some err =>
          ((processPackets env.resample env.encode env.r0 env.e0 env.packets).1, some err)
      | none =>
        match env.encode
            (processPackets env.resample env.encode env.r0 env.e0 env.packets).2.2.1 none with
        | Except.error err =>
            ((processPackets env.resample env.encode env.r0 env.e0 env.packets).1
              ++ [Event.encodeCall none], some err)
        | Except.ok pr =>
            ((processPackets env.resample env.encode env.r0 env.e0 env.packets).1
              ++ Event.encodeCall none :: pr.2.map Event.muxCall
              ++ [Event.closeInCall, Event.closeOutCall], none) := rfl

theorem encodeFrames_loopEvents {E : Type}
    (encode : E → Option Frame → Except PyError (E × List OutPacket)) (e : E)
    (fs : List Frame) :
    ∀ ev ∈ (encodeFrames encode e fs).1, isLoopEvent ev = true := by
  induction fs generalizing e with
  | nil => simp [encodeFrames]
  | cons f fs ih =>
    intro ev hev
    cases h : encode e (some f) with
    | error err =>
      simp [encodeFrames, h] at hev
      subst hev; rfl
    | ok pr =>
      simp [encodeFrames, h] at hev
      rcases hev with h1 | h2 | h3
      · subst h1; rfl
      · obtain ⟨pk, _, rfl⟩ := h2; rfl
      · exact ih pr.1 ev h3

theorem processFrames_loopEvents {R E : Type}
    (resample : R → Frame → R × ResampleRet)
    (encode : E → Option Frame → Except PyError (E × List OutPacket))
    (r : R) (e : E) (fs : List Frame) :
    ∀ ev ∈ (processFrames resample encode r e fs).1, isLoopEvent ev = true := by
  induction fs generalizing r e with
  | nil => simp [processFrames]
  | cons f fs ih =>
    intro ev hev
    cases h : (encodeFrames encode e (normalizeRet (resample r f).2)).2.2 with
    | some err =>
      simp [processFrames, h] at hev
      rcases hev with h1 | h2
      · subst h1; rfl
      · exact encodeFrames_loopEvents encode e _ ev h2
    | none =>
      simp [processFrames, h] at hev
      rcases hev with h1 | h2 | h3
      · subst h1; rfl
      · exact encodeFrames_loopEvents encode e _ ev h2
      · exact ih _ _ ev h3

theorem processPackets_loopEvents {R E : Type}
    (resample : R → Frame → R × ResampleRet)
    (encode : E → Option Frame → Except PyError (E × List OutPacket))
    (r : R) (e : E) (ps : List Packet) :
    ∀ ev ∈ (processPackets resample encode r e ps).1, isLoopEvent ev = true := by
  induction ps generalizing r e with
  | nil => simp [processPackets]
  | cons p ps ih =>
    intro ev hev
    cases hd : p.dts with
    | none =>
      rw [processPackets, hd] at hev
      exact ih r e ev hev
    | some t =>
      cases hdr : p.decodeResult with
      | failure err =>
        simp [processPackets, hd, hdr] at hev
        subst hev; rfl
      | frames fs =>
        cases h : (processFrames resample encode r e fs).2.2.2 with
        | some err =>
          simp [processPackets, hd, hdr, h] at hev
          rcases hev with h1 | h2
          · subst h1; rfl
          · exact processFrames_loopEvents resample encode r e fs ev h2
        | none =>
          simp [processPackets, hd, hdr, h] at hev
          rcases hev with h1 | h2 | h3
          · subst h1; rfl
          · exact processFrames_loopEvents resample encode r e fs ev h2
          · exact ih _ _ ev h3

theorem loopEvent_not_flush (ev : Event) (h : isLoopEvent ev = true) :
    isFlushCall ev = false := by
  cases ev with
  | encodeCall f => cases f <;> simp_all [isLoopEvent, isFlushCall]
  | _ => rfl

end Transcode

namespace Transcode

/-- C2: if the source audio stream reports no channel layout, the output
stream's layout is set to "stereo"; if the source reports a layout, the
output layout equals that layout's name, never overridden. -/
theorem layout_fallback_policy :
    outLayout none = "stereo" ∧ ∀ l : Layout, outLayout (some l) = l.name :=
  ⟨rfl, fun _ => rfl⟩

/-- C10: if the selected audio stream reports no sample rate (absent or
zero), the output stream's rate is 44100; otherwise it equals the source
stream's rate. -/
theorem rate_fallback_policy :
    outRate none = 44100 ∧ outRate (some 0) = 44100 ∧
      ∀ n : Nat, n ≠ 0 → outRate (some n) = n := by
  refine ⟨rfl, rfl, fun n hn => ?_⟩
  simp [outRate, hn]

/-- Witness for C10 at a concrete non-zero rate. -/
theorem rate_fallback_policy_witness : (48000 : Nat) ≠ 0 ∧ outRate (some 48000) = 48000 :=
  ⟨by decide, rate_fallback_policy.2.2 48000 (by decide)⟩

/-- C7 counterexample: on a container whose only stream is a video stream,
`next(...)` raises the builtin `StopIteration`, which is not the
`NoAudioStreamError` the claim names (nor any error of the claimed
taxonomy). -/
theorem select_audio_counterexample :
    selectAudioStream [{ type := "video", rate := none, layout := none }] =
      Except.error PyError.stopIteration ∧
    pyErrorName PyError.stopIteration ≠ "NoAudioStreamError" := by
  exact ⟨rfl, by decide⟩

/-- C7 amended: when no stream of the input container has type "audio",
stream selection fails with the builtin `StopIteration` exception (the
script defines no `NoAudioStreamError` or error taxonomy of its own). -/
theorem select_audio_stream_error (streams : List InStream)
    (h : ∀ s ∈ streams, s.type ≠ "audio") :
    selectAudioStream streams = Except.error PyError.stopIteration := by
  unfold selectAudioStream
  have hf : streams.find? (fun s => s.type == "audio") = none := by
    rw [List.find?_eq_none]
    intro s hs
    simpa using h s hs
  rw [hf]

/-- Witness for the amended C7 on a concrete video-only container. -/
theorem select_audio_stream_error_witness :
    selectAudioStream [{ type := "video", rate := none, layout := none }] =
      Except.error PyError.stopIteration :=
  select_audio_stream_error [{ type := "video", rate := none, layout := none }] (by decide)

/-- C6 counterexample: on a run whose second packet fails to decode, the
script stops at the raised error and neither `in_container.close()` nor
`out_container.close()` is ever executed — the close calls sit after the
loop with no try/finally or context manager guarding them. -/
theorem error_path_skips_closes :
    (run envErr).2 = some PyError.avDecodeError ∧
    Event.closeInCall ∉ (run envErr).1 ∧ Event.closeOutCall ∉ (run envErr).1 := by
  decide

/-- C6 amended: on a successful run both containers are closed (input then
output) as the last two actions; on a run aborted by a decode or encode
error, the script terminates at the raised exception and neither container
is explicitly closed. -/
theorem closes_only_on_success {R E : Type} (env : Env R E) (tr : List Event) :
    (run env = (tr, none) → ∃ pre, tr = pre ++ [Event.closeInCall, Event.closeOutCall]) ∧
    (∀ err, run env = (tr, some err) →
      Event.closeInCall ∉ tr ∧ Event.closeOutCall ∉ tr) := by
  have hloop : ∀ ev ∈ (processPackets env.resample env.encode env.r0 env.e0 env.packets).1,
      isLoopEvent ev = true :=
    processPackets_loopEvents env.resample env.encode env.r0 env.e0 env.packets
  constructor
  · intro h
    rw [run_eq] at h
    cases hb : (processPackets env.resample env.encode env.r0 env.e0 env.packets).2.2.2 with
    | some err =>
      rw [hb] at h
      simp only [Prod.mk.injEq] at h
      exact absurd h.2 (by simp)
    | none =>
      rw [hb] at h
      cases he : env.encode
          (processPackets env.resample env.encode env.r0 env.e0 env.packets).2.2.1 none with
      | error err =>
        rw [he] at h
        simp only [Prod.mk.injEq] at h
        exact absurd h.2 (by simp)
      | ok pr =>
        rw [he] at h
        simp only [Prod.mk.injEq] at h
        refine ⟨(processPackets env.resample env.encode env.r0 env.e0 env.packets).1
          ++ Event.encodeCall none :: pr.2.map Event.muxCall, ?_⟩
        rw [← h.1]
  · intro err h
    rw [run_eq] at h
    cases hb : (processPackets env.resample env.encode env.r0 env.e0 env.packets).2.2.2 with
    | some err2 =>
      rw [hb] at h
      simp only [Prod.mk.injEq] at h
      constructor
      · intro hc
        rw [← h.1] at hc
        have := hloop Event.closeInCall hc
        simp [isLoopEvent] at this
      · intro hc
        rw [← h.1] at hc
        have := hloop Event.closeOutCall hc
        simp [isLoopEvent] at this
    | none =>
      rw [hb] at h
      cases he : env.encode
          (processPackets env.resample env.encode env.r0 env.e0 env.packets).2.2.1 none with
      | error err2 =>
        rw [he] at h
        simp only [Prod.mk.injEq] at h
        constructor
        · intro hc
          rw [← h.1] at hc
          rw [List.mem_append] at hc
          rcases hc with hc | hc
          · have := hloop Event.closeInCall hc
            simp [isLoopEvent] at this
          · simp at hc
        · intro hc
          rw [← h.1] at hc
          rw [List.mem_append] at hc
          rcases hc with hc | hc
          · have := hloop Event.closeOutCall hc
            simp [isLoopEvent] at this
          · simp at hc
      | ok pr =>
        rw [he] at h
        simp only [Prod.mk.injEq] at h
        exact absurd h.2 (by simp)

/-- Witness for the amended C6: the sample success run ends in the two
closes, and the sample failing run closes neither container. -/
theorem closes_only_on_success_witness :
    (∃ pre, (run envW).1 = pre ++ [Event.closeInCall, Event.closeOutCall]) ∧
    (Event.closeInCall ∉ (run envErr).1 ∧ Event.closeOutCall ∉ (run envErr).1) :=
  ⟨(closes_only_on_success envW (run envW).1).1 (by decide),
   (closes_only_on_success envErr (run envErr).1).2 PyError.avDecodeError (by decide)⟩

/-- C8: two runs that agree on the demuxed packets and on the resampler and
encoder behaviour and initial states produce identical traces — in
particular identical muxed packet sequences — regardless of the file paths
or stream metadata; the pipeline has no other inputs, so its output is a
function of input and configuration alone. -/
theorem run_deterministic {R E : Type} (env1 env2 : Env R E)
    (hp : env1.packets = env2.packets) (hrs : env1.resample = env2.resample)
    (hr0 : env1.r0 = env2.r0) (hen : env1.encode = env2.encode)
    (he0 : env1.e0 = env2.e0) :
    run env1 = run env2 ∧ muxedPackets (run env1).1 = muxedPackets (run env2).1 := by
  have hrun : run env1 = run env2 := by
    rw [run_eq, run_eq, hp, hrs, hr0, hen, he0]
  exact ⟨hrun, by rw [hrun]⟩

/-- Witness for C8: the sample pipeline pointed at two different path pairs
produces the same trace and the same muxed packets. -/
theorem run_deterministic_witness :
    run envW = run envW2 ∧ muxedPackets (run envW).1 = muxedPackets (run envW2).1 :=
  run_deterministic envW envW2 rfl rfl rfl rfl rfl

theorem processPackets_skip_none {R E : Type}
    (resample : R → Frame → R × ResampleRet)
    (encode : E → Option Frame → Except PyError (E × List OutPacket))
    (ps1 ps2 : List Packet) (p : Packet) (hdts : p.dts = none) :
    ∀ (r : R) (e : E),
      processPackets resample encode r e (ps1 ++ p :: ps2) =
        processPackets resample encode r e (ps1 ++ ps2) := by
  induction ps1 with
  | nil =>
    intro r e
    simp only [List.nil_append]
    rw [processPackets, hdts]
  | cons q qs ih =>
    intro r e
    simp only [List.cons_append, processPackets]
    cases hq : q.dts with
    | none => simp only [hq]; exact ih r e
    | some t =>
      simp only [hq]
      cases hqr : q.decodeResult with
      | failure err => simp only [hqr]
      | frames fs =>
        simp only [hqr]
        cases hpf : (processFrames resample encode r e fs).2.2.2 with
        | some err => simp only [hpf]
        | none => simp only [hpf, List.append_eq, ih]

/-- C3: a demuxed packet with absent `dts` is skipped by the `continue`
without a decode call: the run behaves exactly as if the packet were not
there, and by itself such a packet contributes an empty trace (zero decoded
frames, zero events) and no error. -/
theorem skip_missing_dts {R E : Type} (env : Env R E)
    (ps1 ps2 : List Packet) (p : Packet)
    (hps : env.packets = ps1 ++ p :: ps2) (hdts : p.dts = none) :
    run env = run { env with packets := ps1 ++ ps2 } ∧
    ∀ (r : R) (e : E),
      processPackets env.resample env.encode r e [p] = ([], r, e, none) := by
  constructor
  · rw [run_eq, run_eq]
    simp only [hps]
    rw [processPackets_skip_none env.resample env.encode ps1 ps2 p hdts]
  · intro r e
    rw [processPackets, hdts]
    rfl

theorem stage_filter_map_mux (l : List OutPacket) :
    (l.map Event.muxCall).filter isStageCall = [] := by
  induction l with
  | nil => rfl
  | cons pk l ih => simp [isStageCall, ih]

theorem encodeFrames_stage {E : Type}
    (encode : E → Option Frame → Except PyError (E × List OutPacket)) (e : E)
    (fs : List Frame) (h : (encodeFrames encode e fs).2.2 = none) :
    (encodeFrames encode e fs).1.filter isStageCall =
      fs.map (fun g => Event.encodeCall (some g)) := by
  induction fs generalizing e with
  | nil => simp [encodeFrames]
  | cons f fs ih =>
    cases hc : encode e (some f) with
    | error err =>
      simp only [encodeFrames, hc] at h
      simp at h
    | ok pr =>
      simp only [encodeFrames, hc] at h ⊢
      rw [List.filter_append, List.filter_cons]
      simp only [isStageCall, stage_filter_map_mux, ih pr.1 h]
      rfl

theorem resampleRun_append {R : Type} (resample : R → Frame → R × ResampleRet)
    (r : R) (fs gs : List Frame) :
    resampleRun resample r (fs ++ gs) =
      resampleRun resample (resampleRun resample r fs) gs := by
  induction fs generalizing r with
  | nil => rfl
  | cons f fs ih => simp only [List.cons_append, resampleRun]; exact ih _

theorem specSeq_append {R : Type} (resample : R → Frame → R × ResampleRet)
    (r : R) (fs gs : List Frame) :
    specResampleEncodeSeq resample r (fs ++ gs) =
      specResampleEncodeSeq resample r fs ++
        specResampleEncodeSeq resample (resampleRun resample r fs) gs := by
  induction fs generalizing r with
  | nil => simp [specResampleEncodeSeq, resampleRun]
  | cons f fs ih =>
    simp only [List.cons_append, specResampleEncodeSeq, resampleRun, List.append_eq]
    rw [ih]
    simp [List.append_assoc]

theorem processFrames_state {R E : Type} (resample : R → Frame → R × ResampleRet)
    (encode : E → Option Frame → Except PyError (E × List OutPacket))
    (r : R) (e : E) (fs : List Frame)
    (h : (processFrames resample encode r e fs).2.2.2 = none) :
    (processFrames resample encode r e fs).2.1 = resampleRun resample r fs := by
  induction fs generalizing r e with
  | nil => simp [processFrames, resampleRun]
  | cons f fs ih =>
    cases hc : (encodeFrames encode e (normalizeRet (resample r f).2)).2.2 with
    | some err =>
      simp only [processFrames, hc] at h
      simp at h
    | none =>
      simp only [processFrames, hc] at h ⊢
      rw [resampleRun]
      exact ih _ _ h

theorem processFrames_stage {R E : Type} (resample : R → Frame → R × ResampleRet)
    (encode : E → Option Frame → Except PyError (E × List OutPacket))
    (r : R) (e : E) (fs : List Frame)
    (h : (processFrames resample encode r e fs).2.2.2 = none) :
    (processFrames resample encode r e fs).1.filter isStageCall =
      specResampleEncodeSeq resample r fs := by
  induction fs generalizing r e with
  | nil => simp [processFrames, specResampleEncodeSeq]
  | cons f fs ih =>
    cases hc : (encodeFrames encode e (normalizeRet (resample r f).2)).2.2 with
    | some err =>
      simp only [processFrames, hc] at h
      simp at h
    | none =>
      simp only [processFrames, hc] at h ⊢
      rw [List.filter_append, List.filter_cons]
      simp only [isStageCall, encodeFrames_stage encode e _ hc, ih _ _ h,
        specResampleEncodeSeq]
      rfl

theorem decodedFrames_cons (p : Packet) (ps : List Packet) :
    decodedFrames (p :: ps) =
      (match p.dts, p.decodeResult with
        | some _, DecodeOutcome.frames fs => fs
        | _, _ => []) ++ decodedFrames ps := by
  simp [decodedFrames]

theorem processPackets_state {R E : Type} (resample : R → Frame → R × ResampleRet)
    (encode : E → Option Frame → Except PyError (E × List OutPacket))
    (r : R) (e : E) (ps : List Packet)
    (h : (processPackets resample encode r e ps).2.2.2 = none) :
    (processPackets resample encode r e ps).2.1 =
      resampleRun resample r (decodedFrames ps) := by
  induction ps generalizing r e with
  | nil => simp [processPackets, decodedFrames, resampleRun]
  | cons p ps ih =>
    rw [decodedFrames_cons]
    cases hd : p.dts with
    | none =>
      simp only [processPackets, hd] at h ⊢
      simp only [List.nil_append]
      exact ih _ _ h
    | some t =>
      cases hdr : p.decodeResult with
      | failure err =>
        simp only [processPackets, hd, hdr] at h
        simp at h
      | frames fs =>
        cases hpf : (processFrames resample encode r e fs).2.2.2 with
        | some err =>
          simp only [processPackets, hd, hdr, hpf] at h
          simp at h
        | none =>
          simp only [processPackets, hd, hdr, hpf] at h ⊢
          rw [resampleRun_append, ← processFrames_state resample encode r e fs hpf]
          exact ih _ _ h

theorem processPackets_stage {R E : Type} (resample : R → Frame → R × ResampleRet)
    (encode : E → Option Frame → Except PyError (E × List OutPacket))
    (r : R) (e : E) (ps : List Packet)
    (h : (processPackets resample encode r e ps).2.2.2 = none) :
    (processPackets resample encode r e ps).1.filter isStageCall =
      specResampleEncodeSeq resample r (decodedFrames ps) := by
  induction ps generalizing r e with
  | nil => simp [processPackets, decodedFrames, specResampleEncodeSeq]
  | cons p ps ih =>
    rw [decodedFrames_cons]
    cases hd : p.dts with
    | none =>
      simp only [processPackets, hd] at h ⊢
      simp only [List.nil_append]
      exact ih _ _ h
    | some t =>
      cases hdr : p.decodeResult with
      | failure err =>
        simp only [processPackets, hd, hdr] at h
        simp at h
      | frames fs =>
        cases hpf : (processFrames resample encode r e fs).2.2.2 with
        | some err =>
          simp only [processPackets, hd, hdr, hpf] at h
          simp at h
        | none =>
          simp only [processPackets, hd, hdr, hpf] at h ⊢
          rw [List.filter_append, List.filter_cons]
          rw [show isStageCall (Event.decodeCall p) = false from rfl]
          rw [if_neg (by simp)]
          rw [processFrames_stage resample encode r e fs hpf]
          rw [ih _ _ h]
          rw [processFrames_state resample encode r e fs hpf]
          rw [specSeq_append]

theorem run_stage_filter {R E : Type} (env : Env R E) (tr : List Event)
    (h : run env = (tr, none)) :
    tr.filter isStageCall =
      specResampleEncodeSeq env.resample env.r0 (decodedFrames env.packets) := by
  rw [run_eq] at h
  cases hb : (processPackets env.resample env.encode env.r0 env.e0 env.packets).2.2.2 with
  | some err =>
    rw [hb] at h
    simp only [Prod.mk.injEq] at h
    exact absurd h.2 (by simp)
  | none =>
    rw [hb] at h
    cases he : env.encode
        (processPackets env.resample env.encode env.r0 env.e0 env.packets).2.2.1 none with
    | error err =>
      rw [he] at h
      simp only [Prod.mk.injEq] at h
      exact absurd h.2 (by simp)
    | ok pr =>
      rw [he] at h
      simp only [Prod.mk.injEq] at h
      rw [← h.1]
      rw [List.filter_append, List.filter_append, List.filter_cons]
      simp only [isStageCall, stage_filter_map_mux,
        processPackets_stage env.resample env.encode env.r0 env.e0 env.packets hb]
      simp [isStageCall]

/-- C4: on every run that completes, the subtrace of resample calls and
real-data encode calls is exactly: for each decoded frame in decode order,
one resample call, followed immediately by one encode call per output frame
the resampler handed back (bare frame or list, normalized), in order,
before the next decoded frame's resample call. -/
theorem resample_call_discipline {R E : Type} (env : Env R E) (tr : List Event)
    (h : run env = (tr, none)) :
    tr.filter isStageCall =
      specResampleEncodeSeq env.resample env.r0 (decodedFrames env.packets) :=
  run_stage_filter env tr h

/-- Witness for C4 on the sample run. -/
theorem resample_call_discipline_witness :
    (run envW).1.filter isStageCall =
      specResampleEncodeSeq envW.resample envW.r0 (decodedFrames envW.packets) :=
  resample_call_discipline envW (run envW).1 (by decide)

theorem filterMap_restrict {α β : Type} (g : α → Option β) (p : α → Bool)
    (hg : ∀ a, (g a).isSome = true → p a = true) (l : List α) :
    (l.filter p).filterMap g = l.filterMap g := by
  induction l with
  | nil => rfl
  | cons a l ih =>
    cases hp : p a with
    | true =>
      cases hga : g a <;>
        simp [List.filter_cons, hp, List.filterMap_cons, hga, ih]
    | false =>
      have hgn : g a = none := by
        cases hga : g a with
        | none => rfl
        | some b => exact absurd (hg a (by simp [hga])) (by simp [hp])
      simp [List.filter_cons, hp, List.filterMap_cons, hgn, ih]

theorem resampleInputs_filter (tr : List Event) :
    resampleInputs (tr.filter isStageCall) = resampleInputs tr := by
  simp only [resampleInputs]
  apply filterMap_restrict
  intro a ha
  cases a with
  | resampleCall f => rfl
  | decodeCall p => simp at ha
  | encodeCall f => simp at ha
  | muxCall pk => simp at ha
  | closeInCall => simp at ha
  | closeOutCall => simp at ha

theorem realEncodeInputs_filter (tr : List Event) :
    realEncodeInputs (tr.filter isStageCall) = realEncodeInputs tr := by
  simp only [realEncodeInputs]
  apply filterMap_restrict
  intro a ha
  cases a with
  | encodeCall f =>
    cases f with
    | none => simp at ha
    | some x => rfl
  | decodeCall p => simp at ha
  | resampleCall f => simp at ha
  | muxCall pk => simp at ha
  | closeInCall => simp at ha
  | closeOutCall => simp at ha

theorem resampleInputs_map_enc (l : List Frame) :
    resampleInputs (l.map (fun g => Event.encodeCall (some g))) = [] := by
  induction l with
  | nil => rfl
  | cons x l ih => simp [resampleInputs, List.filterMap_cons, ih]

theorem realEncodeInputs_map_enc (l : List Frame) :
    realEncodeInputs (l.map (fun g => Event.encodeCall (some g))) = l := by
  induction l with
  | nil => rfl
  | cons x l ih => simpa [realEncodeInputs, List.filterMap_cons] using ih

theorem resampleInputs_specSeq {R : Type} (resample : R → Frame → R × ResampleRet)
    (r : R) (fs : List Frame) :
    resampleInputs (specResampleEncodeSeq resample r fs) = fs := by
  induction fs generalizing r with
  | nil => rfl
  | cons f fs ih =>
    simp only [specResampleEncodeSeq]
    simp only [resampleInputs, List.filterMap_cons, List.filterMap_append] at ih ⊢
    rw [ih]
    have := resampleInputs_map_enc (normalizeRet (resample r f).2)
    simp only [resampleInputs] at this
    rw [this]
    rfl

theorem realEncodeInputs_specSeq {R : Type} (resample : R → Frame → R × ResampleRet)
    (r : R) (fs : List Frame) :
    realEncodeInputs (specResampleEncodeSeq resample r fs) = resampleOutputs resample r fs := by
  induction fs generalizing r with
  | nil => rfl
  | cons f fs ih =>
    simp only [specResampleEncodeSeq, resampleOutputs]
    simp only [realEncodeInputs, List.filterMap_cons, List.filterMap_append] at ih ⊢
    rw [ih]
    have := realEncodeInputs_map_enc (normalizeRet (resample r f).2)
    simp only [realEncodeInputs] at this
    rw [this]

theorem muxed_map_mux (l : List OutPacket) :
    muxedPackets (l.map Event.muxCall) = l := by
  induction l with
  | nil => rfl
  | cons pk l ih => simpa [muxedPackets, List.filterMap_cons] using ih

theorem encodeInputs_map_mux (l : List OutPacket) :
    encodeInputs (l.map Event.muxCall) = [] := by
  induction l with
  | nil => rfl
  | cons pk l ih => simp [encodeInputs, List.filterMap_cons, ih]

theorem encodeAllOk_append {E : Type}
    (encode : E → Option Frame → Except PyError (E × List OutPacket)) (e : E)
    (xs ys : List (Option Frame)) (e1 e2 : E) (o1 o2 : List OutPacket)
    (h1 : encodeAllOk encode e xs = some (e1, o1))
    (h2 : encodeAllOk encode e1 ys = some (e2, o2)) :
    encodeAllOk encode e (xs ++ ys) = some (e2, o1 ++ o2) := by
  induction xs generalizing e o1 with
  | nil =>
    simp only [encodeAllOk, Option.some.injEq, Prod.mk.injEq] at h1
    obtain ⟨rfl, rfl⟩ := h1
    simpa using h2
  | cons x xs ih =>
    cases hc : encode e x with
    | error err =>
      simp only [encodeAllOk, hc] at h1
      cases h1
    | ok pr =>
      simp only [encodeAllOk, hc] at h1
      cases hrec : encodeAllOk encode pr.1 xs with
      | none => rw [hrec] at h1; cases h1
      | some pr2 =>
        rw [hrec] at h1
        simp only [Option.some.injEq, Prod.mk.injEq] at h1
        obtain ⟨he1, ho1⟩ := h1
        have hih : encodeAllOk encode pr.1 (xs ++ ys) = some (e2, pr2.2 ++ o2) :=
          ih pr.1 pr2.2 (by rw [hrec, ← he1])
        simp only [List.cons_append, encodeAllOk, hc, List.append_eq]
        rw [hih, ← ho1, List.append_assoc]

theorem encodeFrames_mux {E : Type}
    (encode : E → Option Frame → Except PyError (E × List OutPacket)) (e : E)
    (fs : List Frame) (h : (encodeFrames encode e fs).2.2 = none) :
    encodeInputs (encodeFrames encode e fs).1 = fs.map some ∧
    encodeAllOk encode e (fs.map some) =
      some ((encodeFrames encode e fs).2.1, muxedPackets (encodeFrames encode e fs).1) := by
  induction fs generalizing e with
  | nil => exact ⟨rfl, rfl⟩
  | cons f fs ih =>
    cases hc : encode e (some f) with
    | error err =>
      simp only [encodeFrames, hc] at h
      simp at h
    | ok pr =>
      simp only [encodeFrames, hc] at h ⊢
      obtain ⟨ih1, ih2⟩ := ih pr.1 h
      refine ⟨?_, ?_⟩
      · simp only [encodeInputs, List.filterMap_cons, List.filterMap_append] at ih1 ⊢
        have hm := encodeInputs_map_mux pr.2
        simp only [encodeInputs] at hm
        rw [hm, ih1]
        rfl
      · simp only [List.map_cons, encodeAllOk, hc]
        rw [ih2]
        have hm := muxed_map_mux pr.2
        simp only [muxedPackets] at hm
        simp only [muxedPackets, List.filterMap_cons, List.filterMap_append]
        rw [hm]

theorem processFrames_mux {R E : Type} (resample : R → Frame → R × ResampleRet)
    (encode : E → Option Frame → Except PyError (E × List OutPacket))
    (r : R) (e : E) (fs : List Frame)
    (h : (processFrames resample encode r e fs).2.2.2 = none) :
    encodeAllOk encode e (encodeInputs (processFrames resample encode r e fs).1) =
      some ((processFrames resample encode r e fs).2.2.1,
        muxedPackets (processFrames resample encode r e fs).1) := by
  induction fs generalizing r e with
  | nil => rfl
  | cons f fs ih =>
    cases hc : (encodeFrames encode e (normalizeRet (resample r f).2)).2.2 with
    | some err =>
      simp only [processFrames, hc] at h
      simp at h
    | none =>
      simp only [processFrames, hc] at h ⊢
      obtain ⟨he1, he2⟩ := encodeFrames_mux encode e (normalizeRet (resample r f).2) hc
      have hrest := ih (resample r f).1 _ h
      simp only [encodeInputs, muxedPackets, List.filterMap_cons, List.filterMap_append]
      simp only [encodeInputs, muxedPackets] at he1 he2 hrest
      rw [← he1] at he2
      exact encodeAllOk_append encode e _ _ _ _ _ _ he2 hrest

theorem processPackets_mux {R E : Type} (resample : R → Frame → R × ResampleRet)
    (encode : E → Option Frame → Except PyError (E × List OutPacket))
    (r : R) (e : E) (ps : List Packet)
    (h : (processPackets resample encode r e ps).2.2.2 = none) :
    encodeAllOk encode e (encodeInputs (processPackets resample encode r e ps).1) =
      some ((processPackets resample encode r e ps).2.2.1,
        muxedPackets (processPackets resample encode r e ps).1) := by
  induction ps generalizing r e with
  | nil => rfl
  | cons p ps ih =>
    cases hd : p.dts with
    | none =>
      simp only [processPackets, hd] at h ⊢
      exact ih _ _ h
    | some t =>
      cases hdr : p.decodeResult with
      | failure err =>
        simp only [processPackets, hd, hdr] at h
        simp at h
      | frames fs =>
        cases hpf : (processFrames resample encode r e fs).2.2.2 with
        | some err =>
          simp only [processPackets, hd, hdr, hpf] at h
          simp at h
        | none =>
          simp only [processPackets, hd, hdr, hpf] at h ⊢
          have hf := processFrames_mux resample encode r e fs hpf
          have hrest := ih _ _ h
          simp only [encodeInputs, muxedPackets, List.filterMap_cons, List.filterMap_append]
          simp only [encodeInputs, muxedPackets] at hf hrest
          exact encodeAllOk_append encode e _ _ _ _ _ _ hf hrest

/-- C5: end-to-end FIFO ordering on every completed run — the frames
entering the resampler are exactly the decoded frames in packet decode
order; the frames entering the encoder are exactly the resampler's output
frames in resample order; and replaying the encoder over the recorded
encode-call inputs yields exactly the muxed packet sequence, i.e. every
encoder output packet is muxed, in the order received, with no
reordering at any stage. -/
theorem fifo_order {R E : Type} (env : Env R E) (tr : List Event)
    (h : run env = (tr, none)) :
    resampleInputs tr = decodedFrames env.packets ∧
    realEncodeInputs tr = resampleOutputs env.resample env.r0 (decodedFrames env.packets) ∧
    ∃ eFin, encodeAllOk env.encode env.e0 (encodeInputs tr) =
      some (eFin, muxedPackets tr) := by
  refine ⟨?_, ?_, ?_⟩
  · rw [← resampleInputs_filter, run_stage_filter env tr h, resampleInputs_specSeq]
  · rw [← realEncodeInputs_filter, run_stage_filter env tr h, realEncodeInputs_specSeq]
  · rw [run_eq] at h
    cases hb : (processPackets env.resample env.encode env.r0 env.e0 env.packets).2.2.2 with
    | some err =>
      rw [hb] at h
      simp only [Prod.mk.injEq] at h
      exact absurd h.2 (by simp)
    | none =>
      rw [hb] at h
      cases he : env.encode
          (processPackets env.resample env.encode env.r0 env.e0 env.packets).2.2.1 none with
      | error err =>
        rw [he] at h
        simp only [Prod.mk.injEq] at h
        exact absurd h.2 (by simp)
      | ok pr =>
        rw [he] at h
        simp only [Prod.mk.injEq] at h
        refine ⟨pr.1, ?_⟩
        rw [← h.1]
        have hbody := processPackets_mux env.resample env.encode env.r0 env.e0 env.packets hb
        have hflush : encodeAllOk env.encode
            (processPackets env.resample env.encode env.r0 env.e0 env.packets).2.2.1
            [none] = some (pr.1, pr.2) := by
          simp [encodeAllOk, he]
        have hcomp := encodeAllOk_append env.encode env.e0 _ _ _ _ _ _ hbody hflush
        have htr : encodeInputs ((processPackets env.resample env.encode env.r0 env.e0
              env.packets).1 ++ Event.encodeCall none :: pr.2.map Event.muxCall
              ++ [Event.closeInCall, Event.closeOutCall]) =
            encodeInputs (processPackets env.resample env.encode env.r0 env.e0
              env.packets).1 ++ [none] := by
          have hm := encodeInputs_map_mux pr.2
          simp only [encodeInputs, List.filterMap_append, List.filterMap_cons] at hm ⊢
          rw [hm]
          simp
        have hmux : muxedPackets ((processPackets env.resample env.encode env.r0 env.e0
              env.packets).1 ++ Event.encodeCall none :: pr.2.map Event.muxCall
              ++ [Event.closeInCall, Event.closeOutCall]) =
            muxedPackets (processPackets env.resample env.encode env.r0 env.e0
              env.packets).1 ++ pr.2 := by
          have hm := muxed_map_mux pr.2
          simp only [muxedPackets, List.filterMap_append, List.filterMap_cons] at hm ⊢
          rw [hm]
          simp
        rw [htr, hmux]
        exact hcomp

/-- Witness for C5 on the sample run. -/
theorem fifo_order_witness :
    resampleInputs (run envW).1 = decodedFrames envW.packets ∧
    realEncodeInputs (run envW).1 =
      resampleOutputs envW.resample envW.r0 (decodedFrames envW.packets) ∧
    ∃ eFin, encodeAllOk envW.encode envW.e0 (encodeInputs (run envW).1) =
      some (eFin, muxedPackets (run envW).1) :=
  fifo_order envW (run envW).1 (by decide)

/-- C1: on every run that completes, the trace decomposes as a prefix with
no flush call, then the single `encode(None)` flush call, then the muxing
of every packet the flush yielded, then the two container closes — so the
flush happens exactly once, only after the last real-data encode call, and
its packets are muxed before the output container is closed. -/
theorem flush_protocol {R E : Type} (env : Env R E) (tr : List Event)
    (h : run env = (tr, none)) :
    ∃ (pre : List Event) (fpkts : List OutPacket),
      tr = pre ++ Event.encodeCall none :: fpkts.map Event.muxCall
        ++ [Event.closeInCall, Event.closeOutCall] ∧
      (∀ ev ∈ pre, isFlushCall ev = false) ∧
      tr.countP isFlushCall = 1 := by
  rw [run_eq] at h
  cases hb : (processPackets env.resample env.encode env.r0 env.e0 env.packets).2.2.2 with
  | some err =>
    rw [hb] at h
    simp only [Prod.mk.injEq] at h
    exact absurd h.2 (by simp)
  | none =>
    rw [hb] at h
    cases he : env.encode
        (processPackets env.resample env.encode env.r0 env.e0 env.packets).2.2.1 none with
    | error err =>
      rw [he] at h
      simp only [Prod.mk.injEq] at h
      exact absurd h.2 (by simp)
    | ok pr =>
      rw [he] at h
      simp only [Prod.mk.injEq] at h
      have hpre : ∀ ev ∈ (processPackets env.resample env.encode env.r0 env.e0 env.packets).1,
          isFlushCall ev = false := fun ev hev =>
        loopEvent_not_flush ev
          (processPackets_loopEvents env.resample env.encode env.r0 env.e0 env.packets ev hev)
      refine ⟨(processPackets env.resample env.encode env.r0 env.e0 env.packets).1, pr.2,
        ?_, hpre, ?_⟩
      · rw [← h.1]
      · rw [← h.1]
        rw [List.countP_append, List.countP_cons, List.countP_append]
        have h1 : (processPackets env.resample env.encode env.r0 env.e0
            env.packets).1.countP isFlushCall = 0 := by
          rw [List.countP_eq_zero]
          intro ev hev
          simp [hpre ev hev]
        have h2 : (pr.2.map Event.muxCall).countP isFlushCall = 0 := by
          rw [List.countP_eq_zero]
          intro ev hev
          obtain ⟨pk, _, rfl⟩ := List.mem_map.mp hev
          simp [isFlushCall]
        simp [List.countP_cons, h1, h2, isFlushCall]

/-- Witness for C1: the flush-protocol decomposition on the sample run. -/
theorem flush_protocol_witness :
    ∃ (pre : List Event) (fpkts : List OutPacket),
      (run envW).1 = pre ++ Event.encodeCall none :: fpkts.map Event.muxCall
        ++ [Event.closeInCall, Event.closeOutCall] ∧
      (∀ ev ∈ pre, isFlushCall ev = false) ∧
      (run envW).1.countP isFlushCall = 1 :=
  flush_protocol envW (run envW).1 (by decide)

/-- Witness for C3: on the sample environment, dropping the middle
(absent-`dts`) packet leaves the run unchanged, and that packet alone
produces no events, no state change and no error. -/
theorem skip_missing_dts_witness :
    (run envW = run { envW with packets := [⟨some 0, DecodeOutcome.frames [1, 2]⟩,
        ⟨some 1, DecodeOutcome.frames [3]⟩] } ∧
      processPackets envW.resample envW.encode 0 0 [⟨none, DecodeOutcome.frames [7]⟩] =
        ([], 0, 0, none)) :=
  ⟨(skip_missing_dts envW [⟨some 0, DecodeOutcome.frames [1, 2]⟩]
      [⟨some 1, DecodeOutcome.frames [3]⟩] ⟨none, DecodeOutcome.frames [7]⟩ rfl rfl).1,
   (skip_missing_dts envW [⟨some 0, DecodeOutcome.frames [1, 2]⟩]
      [⟨some 1, DecodeOutcome.frames [3]⟩] ⟨none, DecodeOutcome.frames [7]⟩ rfl rfl).2 0 0⟩

end Transcode

namespace Gateway

theorem find_truthy_cons (x : JVal) (l : List JVal) :
    (x :: l).find? JVal.truthy = if x.truthy then some x else l.find? JVal.truthy := by
  cases hx : x.truthy <;> simp [List.find?, hx]

theorem chain2 (b c : Option JVal) (v : JVal)
    (h : ([b, c].filterMap id).find? JVal.truthy = some v) :
    pyOr b c = some v := by
  rcases b with _ | vb
  · rcases c with _ | vc
    · simp at h
    · simp only [List.filterMap_cons, id, List.filterMap_nil] at h
      cases hvc : vc.truthy with
      | true =>
        rw [find_truthy_cons, if_pos hvc] at h
        exact h
      | false =>
        rw [find_truthy_cons, if_neg (by simp [hvc])] at h
        simp at h
  · simp only [List.filterMap_cons, id] at h
    cases hvb : vb.truthy with
    | true =>
      rw [find_truthy_cons, if_pos hvb] at h
      rw [pyOr, if_pos hvb]
      exact h
    | false =>
      rw [find_truthy_cons, if_neg (by simp [hvb])] at h
      rw [pyOr, if_neg (by simp [hvb])]
      rcases c with _ | vc
      · simp at h
      · simp only [List.filterMap_cons, id, List.filterMap_nil] at h
        cases hvc : vc.truthy with
        | true =>
          rw [find_truthy_cons, if_pos hvc] at h
          exact h
        | false =>
          rw [find_truthy_cons, if_neg (by simp [hvc])] at h
          simp at h

theorem chain_first_truthy (a b c : Option JVal) (v : JVal)
    (h : ([a, b, c].filterMap id).find? JVal.truthy = some v) :
    pyOr a (pyOr b c) = some v := by
  rcases a with _ | va
  · simp only [List.filterMap_cons, id] at h
    exact chain2 b c v h
  · simp only [List.filterMap_cons, id] at h
    cases hva : va.truthy with
    | true =>
      rw [find_truthy_cons, if_pos hva] at h
      rw [pyOr, if_pos hva]
      exact h
    | false =>
      rw [find_truthy_cons, if_neg (by simp [hva])] at h
      rw [pyOr, if_neg (by simp [hva])]
      exact chain2 b c v h

theorem find_truthy_is_truthy (l : List JVal) (v : JVal)
    (h : l.find? JVal.truthy = some v) : v.truthy = true := by
  induction l with
  | nil => cases h
  | cons x xs ih =>
    rw [find_truthy_cons] at h
    by_cases hx : x.truthy = true
    · rw [if_pos hx] at h
      cases h
      exact hx
    · rw [if_neg (by simpa using hx)] at h
      exact ih h

/-- C9: the upload handler selects the upload URL by trying the keys
`upload_url`, `presigned_url`, `url` in that order, taking the first
present truthy value and issuing the presigned PUT with it; when none of
the three keys is present in the upstream init response, it raises HTTP 502
and performs no PUT request. -/
theorem upload_url_selection (d : List (String × JVal)) :
    (∀ v, specPickUploadUrl d = some v → uploadUrlStep d = UploadStep.putRequest v) ∧
    (jget d "upload_url" = none → jget d "presigned_url" = none → jget d "url" = none →
      uploadUrlStep d = UploadStep.httpError 502 "Upstream did not return an upload URL" ∧
      ∀ v, uploadUrlStep d ≠ UploadStep.putRequest v) := by
  constructor
  · intro v hv
    unfold specPickUploadUrl at hv
    have hlists : List.filterMap (jget d) ["upload_url", "presigned_url", "url"] =
        List.filterMap id [jget d "upload_url", jget d "presigned_url", jget d "url"] := by
      rcases hA : jget d "upload_url" with _ | va <;>
        rcases hB : jget d "presigned_url" with _ | vb <;>
          rcases hC : jget d "url" with _ | vc <;>
            simp [List.filterMap_cons, hA, hB, hC]
    rw [hlists] at hv
    have hchain : pickUploadUrl d = some v := by
      unfold pickUploadUrl
      exact chain_first_truthy (jget d "upload_url") (jget d "presigned_url")
        (jget d "url") v hv
    have htru : v.truthy = true :=
      find_truthy_is_truthy _ v hv
    unfold uploadUrlStep
    rw [hchain]
    simp [htru]
  · intro h1 h2 h3
    have hstep : uploadUrlStep d =
        UploadStep.httpError 502 "Upstream did not return an upload URL" := by
      unfold uploadUrlStep pickUploadUrl pyOr
      rw [h1, h2, h3]
    exact ⟨hstep, fun v hv => by rw [hstep] at hv; cases hv⟩

/-- Witness for C9: a response carrying only a truthy `presigned_url` leads
to a PUT to that URL, and a response with none of the three keys yields the
502 with no PUT. -/
theorem upload_url_selection_witness :
    (uploadUrlStep [("presigned_url", JVal.str "https://bucket/put")] =
      UploadStep.putRequest (JVal.str "https://bucket/put")) ∧
    (uploadUrlStep [("file_key", JVal.str "k")] =
      UploadStep.httpError 502 "Upstream did not return an upload URL") :=
  ⟨(upload_url_selection [("presigned_url", JVal.str "https://bucket/put")]).1
      (JVal.str "https://bucket/put") (by decide),
   ((upload_url_selection [("file_key", JVal.str "k")]).2 (by decide) (by decide)
      (by decide)).1⟩

end Gateway
